import Mathlib

/-!
The header `TinySTL/function.h` of M1sakalib

A shallow embedding of the type-erased callable wrapper `M1sakalib::function<R(Args...)>`.

* The free store is a list of cells; `std::make_unique` appends a cell and returns its
  index, `delete` clears the cell. An address is never handed out twice.
* `std::unique_ptr<CallableBase>` is an optional address (`none` is `nullptr`).
* Wrapper objects are identified by a natural number (their address, the value of `this`),
  so that the guard `this != &other` and self-assignment can be expressed.
* The program's callable types are a parameter: `Ty` indexes them, `Val F` is the type of the
  values of the callable type `F`, and `call F v args` is `v(args)`: the result, converted to
  `R` by the return statement of `Callable::invoke`, paired with the value of the callable
  after the call (a call operator may change its object).
* A callable type of the program may itself be an instantiation `function<S>` of this class
  template, for another signature `S` (`Instantiations.is_function`). Initialising a value of
  such a type runs the constructors of lines 58 to 62 in that instantiation; copying or moving
  a value of any other callable type yields an equal value.
* Undefined behaviour (dereferencing an empty or dangling handle) and running out of fuel are
  the `Fault` outcomes.
-/

namespace M1sakalib

/-- The `std::type_info` identities the wrapper can report or be asked about: `typeid(void)`,
`typeid(function<R(Args...)>)` and `typeid(F)` for a callable type `F` of the program.
`typeid` ignores top-level cv-qualifiers, so types are identified up to them. -/
inductive type_info (Ty : Type) where
  | void
  | self
  | of (F : Ty)
  deriving DecidableEq

/-- The data of `class function<R(Args...)>`: the single member
`std::unique_ptr<CallableBase> callable_`. -/
structure function where
  callable_ : Option Nat
  deriving DecidableEq

/-- The adapter `struct Callable<F> : CallableBase` with its member `F callable_func_`. `F` is
a callable type of the program (`value`), or `function<R(Args...)>` itself (`wrapper`), which
is what the unconstrained `template<typename F> function(F&&)` instantiates when its argument
is a wrapper. -/
inductive Callable (Ty : Type) (Val : Ty → Type) where
  | value (F : Ty) (callable_func_ : Val F)
  | wrapper (callable_func_ : function)

/-- Outcomes that are not a normal return. -/
inductive Fault where
  | null_deref
  | dangling
  | out_of_fuel
  deriving DecidableEq

/-- The free store. -/
abbrev Heap (Ty : Type) (Val : Ty → Type) := List (Option (Callable Ty Val))

/-- The program state: the free store and the wrapper objects. -/
structure State (Ty : Type) (Val : Ty → Type) where
  heap : Heap Ty Val
  objs : Nat → function

/-- Value category and constness of an expression of type `function<R(Args...)>`. -/
inductive Category where
  | lvalue
  | const_lvalue
  | rvalue
  | const_rvalue
  deriving DecidableEq

/-- The argument of a direct initialisation `function<R(Args...)> x(arg)`: an expression of
category `cat` whose value is `v`, of a callable type `F` of the program, or an expression
naming the wrapper object `other` of the same instantiation. -/
inductive CtorArg (Ty : Type) (Val : Ty → Type) where
  | callable (cat : Category) (F : Ty) (v : Val F)
  | wrapper (cat : Category) (other : Nat)

/-- Which callable types of the program are themselves instantiations of this class template.
`is_function F`: the type `F` is `function<S>` for some signature `S` other than
`R(Args...)`. `holds_function F v`, for a value `v` of such a type: the adapter `v` holds has
a `callable_func_` that is again an instantiation of `function`. -/
class Instantiations (Ty : Type) (Val : Ty → Type) where
  is_function : Ty → Bool
  holds_function : (F : Ty) → Val F → Bool

/-- What an assignment operator hands back: the state it leaves, and the object named by the
`return` statement it executed (`none` when control reaches the closing brace of the body
without executing one). -/
structure AssignResult (Ty : Type) (Val : Ty → Type) where
  state : State Ty Val
  returned : Option Nat

section Model

variable {R Args Ty : Type} {Val : Ty → Type} [Instantiations Ty Val]

/-- The cell at address `p`: `none` when nothing live is there. -/
def Heap.read (h : Heap Ty Val) (p : Nat) : Option (Callable Ty Val) :=
  h[p]?.join

/-- `std::make_unique<Callable<F>>(...)`: a fresh cell; returns the new store and the address. -/
def Heap.make_unique (h : Heap Ty Val) (c : Callable Ty Val) : Heap Ty Val × Nat :=
  (h ++ [some c], h.length)

/-- Overwrite the adapter at `p`. -/
def Heap.write (h : Heap Ty Val) (p : Nat) (c : Callable Ty Val) : Heap Ty Val :=
  h.set p (some c)

/-- `Callable::target_type`: `return typeid(F);`. -/
def Callable.target_type : Callable Ty Val → type_info Ty
  | .value F _ => .of F
  | .wrapper _ => .self

/-- `delete p` on a `CallableBase*`: runs the destructor of the adapter, which destroys
`callable_func_`, and frees the cell. Destroying a `callable_func_` that is itself a wrapper
deletes the adapter that wrapper owns. Deleting what is not live is undefined. -/
def Heap.delete : Nat → Heap Ty Val → Nat → Except Fault (Heap Ty Val)
  | fuel, h, p =>
    match h.read p with
    | none => .error .dangling
    | some (.value _ _) => .ok (h.set p none)
    | some (.wrapper inner) =>
      match inner.callable_ with
      | none => .ok (h.set p none)
      | some q =>
        match fuel with
        | 0 => .error .out_of_fuel
        | n + 1 =>
          match Heap.delete n h q with
          | .error e => .error e
          | .ok h1 => .ok (h1.set p none)

/-- `unique_ptr::reset` applied to the old pointer: deletes it unless it is null. -/
def Heap.release (fuel : Nat) (h : Heap Ty Val) : Option Nat → Except Fault (Heap Ty Val)
  | none => .ok h
  | some q => Heap.delete fuel h q

/-- The store with the cell at `old` cleared, unless `old` is null: what `Heap.release` leaves
when `old` is the address of a live adapter of a callable type of the program. -/
def Heap.without (h : Heap Ty Val) : Option Nat → Heap Ty Val
  | none => h
  | some q => h.set q none

/-- `callable_->invoke(args...)` on a handle, as `function::operator()` performs it:
`Callable<F>::invoke` is `return callable_func_(std::forward<Args>(args)...);`. For a callable
type of the program this is `call`, and the adapter keeps the value the call leaves; for a
held wrapper it is that wrapper's `operator()`. -/
def invoke (call : (F : Ty) → Val F → Args → R × Val F) :
    Nat → Heap Ty Val → Option Nat → Args → Except Fault (R × Heap Ty Val)
  | _, _, none, _ => .error .null_deref
  | fuel, h, some p, args =>
    match h.read p with
    | none => .error .dangling
    | some (.value F v) => .ok ((call F v args).1, h.write p (.value F (call F v args).2))
    | some (.wrapper inner) =>
      match fuel with
      | 0 => .error .out_of_fuel
      | n + 1 => invoke call n h inner.callable_ args

/-- The `template<typename F> function(F &&f)` constructor when `F` is a (reference to,
possibly const) `function<R(Args...)>`: `std::make_unique<Callable<function>>(f)` runs
`Callable(U &&other) : callable_func_(std::forward<U>(other))`, and that member initialiser
constructs a `function` from the same expression, which selects this same constructor again.
The argument is only passed along by reference and never read, so it is no parameter here.
Returns the store and the handle of the wrapper under construction. -/
def function.ctor_forward_wrapper : Nat → Heap Ty Val → Except Fault (Heap Ty Val × function)
  | 0, _ => .error .out_of_fuel
  | n + 1, h =>
    match function.ctor_forward_wrapper n h with
    | .error e => .error e
    | .ok (h1, member) =>
      .ok ((Heap.make_unique h1 (.wrapper member)).1, ⟨some (Heap.make_unique h1 (.wrapper member)).2⟩)

/-- `Callable::clone` of an adapter whose `callable_func_` is an instantiation of `function`:
`return std::make_unique<Callable>(callable_func_);` passes the member as a non-const lvalue,
so the new adapter's member is built by the forwarding constructor. -/
def Callable.clone_wrapper (fuel : Nat) (h : Heap Ty Val) : Except Fault (Heap Ty Val × Nat) :=
  match function.ctor_forward_wrapper fuel h with
  | .error e => .error e
  | .ok (h1, member) => .ok (Heap.make_unique h1 (.wrapper member))

/-- The adapter that `Callable(U &&other) : callable_func_(std::forward<U>(other))` builds
for a callable type `F` of the program from an expression of category `cat` and value `v`.

* `F` is no instantiation of `function`: the member is copied or moved, an equal value.
* `F` is `function<S>`: the member is initialised by the constructors of `function<S>`.
  An rvalue takes `function(function&&)`: the member takes over the value. A const lvalue
  takes `function(const function&)`, which clones the adapter the source holds; that
  `clone()` passes its own `callable_func_` as a non-const lvalue, so it returns an equal
  wrapper unless the source holds another instantiation of `function`. A non-const
  lvalue and a const rvalue take the template `function(F&&)`. -/
def Callable.ctor (fuel : Nat) (h : Heap Ty Val) (cat : Category) (F : Ty) (v : Val F) :
    Except Fault (Heap Ty Val × Callable Ty Val) :=
  if Instantiations.is_function Val F = true then
    match cat with
    | .rvalue => .ok (h, .value F v)
    | .const_lvalue =>
      if Instantiations.holds_function F v = true then
        match Callable.clone_wrapper fuel h with
        | .error e => .error e
        | .ok (h1, q) => .ok (h1, .wrapper ⟨some q⟩)
      else .ok (h, .value F v)
    | .lvalue =>
      match function.ctor_forward_wrapper fuel h with
      | .error e => .error e
      | .ok (h1, member) => .ok (h1, .wrapper member)
    | .const_rvalue =>
      match function.ctor_forward_wrapper fuel h with
      | .error e => .error e
      | .ok (h1, member) => .ok (h1, .wrapper member)
  else .ok (h, .value F v)

/-- `Callable::clone`: `return std::make_unique<Callable>(callable_func_);`. The new adapter
is built from the member `callable_func_`, a non-const lvalue. -/
def Callable.clone (fuel : Nat) (h : Heap Ty Val) : Callable Ty Val → Except Fault (Heap Ty Val × Nat)
  | .value F v =>
    match Callable.ctor fuel h .lvalue F v with
    | .error e => .error e
    | .ok (h1, c) => .ok (Heap.make_unique h1 c)
  | .wrapper _ => Callable.clone_wrapper fuel h

/-- Store `f` into the wrapper object `this`. -/
def State.set (s : State Ty Val) (this : Nat) (f : function) : State Ty Val :=
  { s with objs := Function.update s.objs this f }

/-- `function() noexcept : callable_(nullptr) {}`. -/
def function.ctor_default (s : State Ty Val) (this : Nat) : State Ty Val :=
  s.set this ⟨none⟩

/-- `template<typename F> function(F &&f)`:
`callable_(std::make_unique<Callable<std::decay_t<F>>>(std::forward<F>(f)))`. -/
def function.ctor_forward (fuel : Nat) (s : State Ty Val) (this : Nat) :
    CtorArg Ty Val → Except Fault (State Ty Val)
  | .callable cat F v =>
    match Callable.ctor fuel s.heap cat F v with
    | .error e => .error e
    | .ok (h1, c) =>
      .ok { heap := (Heap.make_unique h1 c).1,
            objs := Function.update s.objs this ⟨some (Heap.make_unique h1 c).2⟩ }
  | .wrapper _ _ =>
    match function.ctor_forward_wrapper fuel s.heap with
    | .error e => .error e
    | .ok (h1, f) => .ok { heap := h1, objs := Function.update s.objs this f }

/-- `function(function &&other) noexcept : callable_(std::move(other.callable_)) {}`: the
`unique_ptr` move constructor takes `other.callable_.release()`. -/
def function.ctor_move (s : State Ty Val) (this other : Nat) : State Ty Val :=
  (s.set other ⟨none⟩).set this ⟨(s.objs other).callable_⟩

/-- `function(const function &other) :
callable_(other.callable_ ? other.callable_->clone() : nullptr) {}`. -/
def function.ctor_copy (fuel : Nat) (s : State Ty Val) (this other : Nat) :
    Except Fault (State Ty Val) :=
  match (s.objs other).callable_ with
  | none => .ok (s.set this ⟨none⟩)
  | some p =>
    match s.heap.read p with
    | none => .error .dangling
    | some c =>
      match c.clone fuel s.heap with
      | .error e => .error e
      | .ok (h1, q) => .ok { heap := h1, objs := Function.update s.objs this ⟨some q⟩ }

/-- Overload resolution for `function<R(Args...)> x(arg)`. An argument of a callable type of
the program can only take the template `function(F&&)`. For a wrapper argument the
candidates are `function(const function&)`, `function(function&&)` and the template
`function(F&&)`: a const lvalue takes the copy constructor and a non-const rvalue the move
constructor (same conversion, the non-template wins); for a non-const lvalue the template
with `F = function&` binds without adding `const` and is the better match, and for a const
rvalue the template with `F = const function` binds an rvalue reference and is the better
match. -/
def function.construct (fuel : Nat) (s : State Ty Val) (this : Nat) :
    CtorArg Ty Val → Except Fault (State Ty Val)
  | .callable cat F v => function.ctor_forward fuel s this (.callable cat F v)
  | .wrapper .const_lvalue other => function.ctor_copy fuel s this other
  | .wrapper .rvalue other => .ok (function.ctor_move s this other)
  | .wrapper .lvalue other => function.ctor_forward fuel s this (.wrapper .lvalue other)
  | .wrapper .const_rvalue other => function.ctor_forward fuel s this (.wrapper .const_rvalue other)

/-- `function &operator=(function &&other) noexcept { callable_ = std::move(other.callable_); }`.
The `unique_ptr` move assignment is `reset(other.callable_.release())`: the right-hand side
is emptied, the left-hand side takes the pointer, and the pointer the left-hand side had at
that moment is deleted. The body has no `return` statement: control then flows off the end
of a function whose return type is `function &`, which is undefined behaviour. The result
records the state the one statement left and `returned := none`. -/
def function.operator_assign_move (fuel : Nat) (s : State Ty Val) (this other : Nat) :
    Except Fault (AssignResult Ty Val) :=
  let s1 := s.set other ⟨none⟩
  match Heap.release fuel s1.heap (s1.objs this).callable_ with
  | .error e => .error e
  | .ok h1 =>
    .ok { state := { heap := h1, objs := Function.update s1.objs this ⟨(s.objs other).callable_⟩ },
          returned := none }

/-- The right-hand side of the assignment inside the copy assignment:
`other.callable_ ? other.callable_->clone() : nullptr`, a temporary `unique_ptr`. -/
def function.clone_or_null (fuel : Nat) (s : State Ty Val) (other : Nat) :
    Except Fault (Heap Ty Val × Option Nat) :=
  match (s.objs other).callable_ with
  | none => .ok (s.heap, none)
  | some p =>
    match s.heap.read p with
    | none => .error .dangling
    | some c =>
      match c.clone fuel s.heap with
      | .error e => .error e
      | .ok (h1, q) => .ok (h1, some q)

/-- `function &operator=(const function &other)`:
`if (this != &other) { callable_ = other.callable_ ? other.callable_->clone() : nullptr; }
return *this;`. The temporary is built first, then move-assigned into `callable_`, which
deletes the adapter held before. -/
def function.operator_assign_copy (fuel : Nat) (s : State Ty Val) (this other : Nat) :
    Except Fault (AssignResult Ty Val) :=
  if this ≠ other then
    match function.clone_or_null fuel s other with
    | .error e => .error e
    | .ok (h1, q) =>
      match Heap.release fuel h1 (s.objs this).callable_ with
      | .error e => .error e
      | .ok h2 =>
        .ok { state := { heap := h2, objs := Function.update s.objs this ⟨q⟩ },
              returned := some this }
  else
    .ok { state := s, returned := some this }

/-- `R operator()(Args...args) { return callable_->invoke(std::forward<Args>(args)...); }`. -/
def function.operator_call (call : (F : Ty) → Val F → Args → R × Val F) (fuel : Nat)
    (s : State Ty Val) (this : Nat) (args : Args) : Except Fault (R × State Ty Val) :=
  match invoke call fuel s.heap (s.objs this).callable_ args with
  | .error e => .error e
  | .ok (r, h1) => .ok (r, { s with heap := h1 })

/-- `explicit operator bool() const noexcept { return static_cast<bool>(callable_); }`. -/
def function.operator_bool (s : State Ty Val) (this : Nat) : Bool :=
  (s.objs this).callable_.isSome

/-- `target_type()`: `return callable_ ? callable_->target_type() : typeid(void);`. -/
def function.target_type (s : State Ty Val) (this : Nat) : Except Fault (type_info Ty) :=
  match (s.objs this).callable_ with
  | none => .ok .void
  | some p =>
    match s.heap.read p with
    | none => .error .dangling
    | some c => .ok c.target_type

/-- `template<typename T> T *target() noexcept`:
`if (callable_ && target_type() == typeid(T)) return static_cast<T *>(callable_->target());
return nullptr;`. `Callable::target` is `return &callable_func_;`, the address of the member
of the adapter at `p`, rendered as `some p`; `none` is `nullptr`. -/
def function.target [DecidableEq Ty] (s : State Ty Val) (this : Nat) (T : type_info Ty) :
    Except Fault (Option Nat) :=
  match (s.objs this).callable_ with
  | none => .ok none
  | some p =>
    match function.target_type s this with
    | .error e => .error e
    | .ok ti => if ti = T then .ok (some p) else .ok none

/-- The statements `function<R(Args...)> w(arg); return w(args);` with `w` the object
`this`. -/
def construct_then_call (call : (F : Ty) → Val F → Args → R × Val F) (fuel : Nat)
    (s : State Ty Val) (this : Nat) (arg : CtorArg Ty Val) (args : Args) :
    Except Fault (R × State Ty Val) :=
  match function.construct fuel s this arg with
  | .error e => .error e
  | .ok s1 => function.operator_call call fuel s1 this args

/-- A run of calls on the wrapper `this`, one per element of `argss`, collecting the
results. -/
def function.call_seq (call : (F : Ty) → Val F → Args → R × Val F) (fuel : Nat) (this : Nat) :
    State Ty Val → List Args → Except Fault (List R × State Ty Val)
  | s, [] => .ok ([], s)
  | s, args :: rest =>
    match function.operator_call call fuel s this args with
    | .error e => .error e
    | .ok (r, s1) =>
      match function.call_seq call fuel this s1 rest with
      | .error e => .error e
      | .ok (rs, s2) => .ok (r :: rs, s2)

/-- The wrapper `w` is empty or its handle refers to a live adapter of a callable type of the
program. -/
def State.sound (s : State Ty Val) (w : Nat) : Prop :=
  ∀ p, (s.objs w).callable_ = some p → ∃ F v, s.heap.read p = some (.value F v)

/-- The wrapper `w` holds the value `v` of the callable type `F` in the adapter at `p`. -/
def State.holds (s : State Ty Val) (w : Nat) (p : Nat) (F : Ty) (v : Val F) : Prop :=
  (s.objs w).callable_ = some p ∧ s.heap.read p = some (.value F v)

/-- The results of calling a value of the callable type `F` on each element of `argss` in
turn, and the value the calls leave. -/
def run_calls (call : (F : Ty) → Val F → Args → R × Val F) (F : Ty) :
    Val F → List Args → List R × Val F
  | v, [] => ([], v)
  | v, args :: rest =>
    ((call F v args).1 :: (run_calls call F (call F v args).2 rest).1,
      (run_calls call F (call F v args).2 rest).2)

/-- The runs of calls `xs` on `a` and `ys` on `b` from the state `s` do not influence each
other: both complete, the run on `b` started after the run on `a` yields the results of the
run on `b` started from `s`, and the run on `a` started after the run on `b` yields the results
of the run on `a` started from `s`. -/
def independent_runs (call : (F : Ty) → Val F → Args → R × Val F) (fuel : Nat)
    (s : State Ty Val) (a b : Nat) (xs ys : List Args) : Prop :=
  ∃ ra rb sa sb, function.call_seq call fuel a s xs = .ok (ra, sa) ∧
    function.call_seq call fuel b s ys = .ok (rb, sb) ∧
    (∃ t, function.call_seq call fuel b sa ys = .ok (rb, t)) ∧
    (∃ t, function.call_seq call fuel a sb xs = .ok (ra, t))

/-! ### Writing through the pointer of `target`, reachable states, the caller's variable -/


/-- The assignment `*ptr = v` through a `F *ptr` obtained from `target<F>()`: `ptr` is the
address of the member `callable_func_` of the adapter at `ptr`, so the assignment replaces
that member. Writing through a pointer to something that is not a live `F` is undefined. -/
def store_through [DecidableEq Ty] (s : State Ty Val) (ptr : Nat) (F : Ty) (v : Val F) :
    Except Fault (State Ty Val) :=
  match s.heap.read ptr with
  | some (.value G _) =>
    if G = F then .ok { s with heap := s.heap.write ptr (.value F v) } else .error .dangling
  | _ => .error .dangling

/-- The statement `*w.target<F>() = v;`. -/
def function.target_store [DecidableEq Ty] (s : State Ty Val) (this : Nat) (F : Ty)
    (v : Val F) : Except Fault (State Ty Val) :=
  match function.target s this (.of F) with
  | .error e => .error e
  | .ok none => .error .null_deref
  | .ok (some ptr) => store_through s ptr F v

/-- The public operations on wrapper objects: direct initialisation from a callable or from
a wrapper (copy, move), default construction, the two assignments, a call, `target<T>()`,
and an assignment through the pointer `target<F>()` returned. -/
inductive Op (Args Ty : Type) (Val : Ty → Type) where
  | construct (this : Nat) (arg : CtorArg Ty Val)
  | ctor_default (this : Nat)
  | assign_copy (this other : Nat)
  | assign_move (this other : Nat)
  | call (this : Nat) (args : Args)
  | target (this : Nat) (T : type_info Ty)
  | target_store (this : Nat) (F : Ty) (v : Val F)

/-- The state one operation leaves, when it completes. -/
def step [DecidableEq Ty] (call : (F : Ty) → Val F → Args → R × Val F) (fuel : Nat)
    (s : State Ty Val) : Op Args Ty Val → Except Fault (State Ty Val)
  | .construct this arg => function.construct fuel s this arg
  | .ctor_default this => .ok (function.ctor_default s this)
  | .assign_copy this other =>
    match function.operator_assign_copy fuel s this other with
    | .error e => .error e
    | .ok r => .ok r.state
  | .assign_move this other =>
    match function.operator_assign_move fuel s this other with
    | .error e => .error e
    | .ok r => .ok r.state
  | .call this args =>
    match function.operator_call call fuel s this args with
    | .error e => .error e
    | .ok (_, s1) => .ok s1
  | .target this T =>
    match function.target s this T with
    | .error e => .error e
    | .ok _ => .ok s
  | .target_store this F v => function.target_store s this F v

/-- A sequence of operations, each on the state the previous one left. -/
def run [DecidableEq Ty] (call : (F : Ty) → Val F → Args → R × Val F) (fuel : Nat) :
    State Ty Val → List (Op Args Ty Val) → Except Fault (State Ty Val)
  | s, [] => .ok s
  | s, op :: rest =>
    match step call fuel s op with
    | .error e => .error e
    | .ok s1 => run call fuel s1 rest

/-- The state before any wrapper is constructed: nothing allocated, every handle null. -/
def State.empty : State Ty Val :=
  { heap := [], objs := fun _ => ⟨none⟩ }

/-- Exclusive ownership: every wrapper is empty or its handle refers to a live adapter of a
callable type of the program, and no adapter is referred to by two different wrappers. -/
def State.wf (s : State Ty Val) : Prop :=
  (∀ w, s.sound w) ∧
    ∀ w1 w2 p, (s.objs w1).callable_ = some p → (s.objs w2).callable_ = some p → w1 = w2

/-- A caller's variable `v` of the callable type `F`, next to the wrapper objects. -/
structure Caller (Ty : Type) (Val : Ty → Type) (F : Ty) where
  v : Val F
  state : State Ty Val

/-- The initialisation `function<R(Args...)> w(v)` with `v` the caller's variable, a
non-const lvalue: `F` is deduced as a reference, `std::decay_t<F>` is the type of `v`, and
`Callable(U &&other) : callable_func_(std::forward<U>(other))` initialises the member from
the referenced object, which is left as it is. -/
def Caller.construct {F : Ty} (fuel : Nat) (c : Caller Ty Val F) (this : Nat) :
    Except Fault (Caller Ty Val F) :=
  match function.construct fuel c.state this (.callable .lvalue F c.v) with
  | .error e => .error e
  | .ok s => .ok { c with state := s }

end Model

/-! ## `TinySTL/index_sequence.h` -/

/-- The pack of `index_sequence<index...>`. -/
abbrev index_sequence := List Nat

/-- `make_index_sequence_impl<N, index...>::type`: the primary template derives from
`make_index_sequence_impl<N - 1, N - 1, index...>`, the specialisation for `N = 0`
declares `type = index_sequence<index...>`. `N - 1` is only formed for `N > 0`, so the
`std::size_t` subtraction does not wrap. -/
def make_index_sequence_impl : Nat → index_sequence → index_sequence
  | 0, index => index
  | N + 1, index => make_index_sequence_impl N (N :: index)

/-- `make_index_sequence<N>`: `make_index_sequence_impl<N>::type`. -/
def make_index_sequence (N : Nat) : index_sequence :=
  make_index_sequence_impl N []

/-! ## A sample program

Three callable types for `function<int(int)>`, used to evaluate the model on concrete inputs:
a counter `[n](int x) mutable { return n++ + x; }`, an adder `[k](int x) { return k + x; }`,
and another instantiation `function<long(long)>`, whose values hold a counter. -/

/-- Callable types of the sample program. -/
inductive SampleTy where
  | counter
  | adder
  | inner
  deriving DecidableEq

/-- Each sample callable is described by one integer: what it captures, or for the inner
wrapper what its counter captures. -/
abbrev SampleVal : SampleTy → Type
  | _ => Nat

/-- The call operators of the sample callables. -/
def sample_call : (F : SampleTy) → SampleVal F → Nat → Nat × SampleVal F
  | .counter, n, x => (n + x, n + 1)
  | .adder, k, x => (k + x, k)
  | .inner, n, x => (n + x, n + 1)

/-- The third sample type is an instantiation of `function`; its values hold a counter,
which is no instantiation of `function`. -/
instance : Instantiations SampleTy SampleVal where
  is_function := fun F => decide (F = .inner)
  holds_function := fun _ _ => false

/-- No objects constructed yet, nothing allocated. -/
def sample_init : State SampleTy SampleVal :=
  { heap := [], objs := fun _ => ⟨none⟩ }

/-- Wrapper 0 holds the counter at 5 (cell 0), wrapper 1 holds the adder of 7 (cell 1). -/
def sample_two : State SampleTy SampleVal :=
  { heap := [some (.value .counter 5), some (.value .adder 7)],
    objs := fun i => if i = 0 then ⟨some 0⟩ else if i = 1 then ⟨some 1⟩ else ⟨none⟩ }

/-- Wrapper 0 holds an inner wrapper `function<long(long)>` around the counter at 7
(cell 0), as `function<int(int)> w0(std::move(g))` leaves it; wrapper 1 is empty. -/
def sample_nested : State SampleTy SampleVal :=
  { heap := [some (.value .inner 7)],
    objs := fun i => if i = 0 then ⟨some 0⟩ else ⟨none⟩ }

/-- Build the counter at 5 in wrapper 0 and the adder of 7 in wrapper 1, copy wrapper 0 into
wrapper 2, call wrapper 0, move wrapper 1 into wrapper 3, copy-assign wrapper 3 to wrapper 0,
and move-assign wrapper 2 to wrapper 1. -/
def sample_ops : List (Op Nat SampleTy SampleVal) :=
  [.construct 0 (.callable .rvalue .counter 5), .construct 1 (.callable .rvalue .adder 7),
    .construct 2 (.wrapper .const_lvalue 0), .call 0 3, .construct 3 (.wrapper .rvalue 1),
    .assign_copy 0 3, .assign_move 1 2]

/-- The state `sample_ops` leaves. -/
def sample_reached : State SampleTy SampleVal :=
  match run sample_call 0 State.empty sample_ops with
  | .ok s => s
  | .error _ => State.empty

section Proofs

variable {R Args Ty : Type} {Val : Ty → Type}

/-! ## The free store -/

theorem Heap.read_lt {h : Heap Ty Val} {p : Nat} {c : Callable Ty Val}
    (hp : h.read p = some c) : p < h.length := by
  by_contra hlt
  have hnone : h[p]? = none := List.getElem?_eq_none (Nat.le_of_not_lt hlt)
  simp [Heap.read, hnone] at hp

theorem Heap.read_make_unique_new (h : Heap Ty Val) (c : Callable Ty Val) :
    (Heap.make_unique h c).1.read (Heap.make_unique h c).2 = some c := by
  simp [Heap.read, Heap.make_unique]

theorem Heap.read_make_unique_old (h : Heap Ty Val) (c : Callable Ty Val) {p : Nat}
    (hp : p ≠ h.length) : (Heap.make_unique h c).1.read p = h.read p := by
  unfold Heap.read Heap.make_unique
  rcases Nat.lt_or_gt_of_ne hp with hlt | hgt
  · rw [List.getElem?_append_left hlt]
  · have h1 : (h ++ [some c])[p]? = none :=
      List.getElem?_eq_none (by simp; omega)
    have h2 : h[p]? = none := List.getElem?_eq_none (by omega)
    rw [h1, h2]

theorem Heap.read_set_same (h : Heap Ty Val) {p : Nat} (x : Option (Callable Ty Val))
    (hp : p < h.length) : Heap.read (h.set p x) p = x := by
  simp [Heap.read, List.getElem?_set_self, hp]

theorem Heap.read_set_other (h : Heap Ty Val) {p q : Nat} (x : Option (Callable Ty Val))
    (hq : q ≠ p) : Heap.read (h.set p x) q = h.read q := by
  simp [Heap.read, List.getElem?_set_ne (Ne.symm hq)]


/-! ## Calls on a held value -/

theorem invoke_value (call : (F : Ty) → Val F → Args → R × Val F) (fuel : Nat)
    {h : Heap Ty Val} {p : Nat} {F : Ty} {v : Val F} (hp : h.read p = some (.value F v))
    (args : Args) :
    invoke call fuel h (some p) args
      = .ok ((call F v args).1, h.write p (.value F (call F v args).2)) := by
  cases fuel <;> simp [invoke, hp]

theorem operator_call_value (call : (F : Ty) → Val F → Args → R × Val F) (fuel : Nat)
    {s : State Ty Val} {w p : Nat} {F : Ty} {v : Val F} (hw : s.holds w p F v) (args : Args) :
    function.operator_call call fuel s w args
      = .ok ((call F v args).1,
          { s with heap := s.heap.write p (.value F (call F v args).2) }) := by
  unfold function.operator_call
  rw [hw.1, invoke_value call fuel hw.2]

theorem operator_call_holds (call : (F : Ty) → Val F → Args → R × Val F)
    {s : State Ty Val} {w p : Nat} {F : Ty} {v : Val F} (hw : s.holds w p F v) (args : Args) :
    State.holds { s with heap := s.heap.write p (.value F (call F v args).2) } w p F
      (call F v args).2 :=
  ⟨hw.1, Heap.read_set_same _ _ (Heap.read_lt hw.2)⟩

/-- C3: a default-constructed wrapper converts to false, reports typeid(void) as its target
type, and target is null for every type, void included. -/
theorem default_is_empty [DecidableEq Ty] (s : State Ty Val) (this : Nat) :
    function.operator_bool (function.ctor_default s this) this = false ∧
      function.target_type (function.ctor_default s this) this = .ok .void ∧
      ∀ T : type_info Ty, function.target (function.ctor_default s this) this T = .ok none := by
  simp [function.operator_bool, function.target_type, function.target, function.ctor_default,
    State.set]

/-! ## The forwarding constructor on a wrapper argument -/

theorem ctor_forward_wrapper_diverges (fuel : Nat) (h : Heap Ty Val) :
    function.ctor_forward_wrapper fuel h = .error .out_of_fuel := by
  induction fuel with
  | zero => rfl
  | succ n ih => simp [function.ctor_forward_wrapper, ih]

/-- C4: copy construction from a wrapper named through a mutable lvalue selects the forwarding
constructor, whose member initialiser selects it again: with any amount of fuel, for every
source wrapper, the construction does not finish. -/
theorem construct_from_lvalue_diverges [Instantiations Ty Val]
    (fuel : Nat) (s : State Ty Val) (this other : Nat) :
    function.construct fuel s this (.wrapper .lvalue other) = .error .out_of_fuel := by
  simp [function.construct, function.ctor_forward, ctor_forward_wrapper_diverges]

/-! ## The member initialiser of the adapter -/

theorem clone_wrapper_diverges (fuel : Nat) (h : Heap Ty Val) :
    Callable.clone_wrapper fuel h = .error .out_of_fuel := by
  simp [Callable.clone_wrapper, ctor_forward_wrapper_diverges]

theorem make_ordinary [Instantiations Ty Val]
    (fuel : Nat) (h : Heap Ty Val) (cat : Category) {F : Ty}
    (hF : Instantiations.is_function Val F = false) (v : Val F) :
    Callable.ctor fuel h cat F v = .ok (h, .value F v) := by
  simp [Callable.ctor, hF]

theorem make_lvalue_function [Instantiations Ty Val] (fuel : Nat) (h : Heap Ty Val) {F : Ty}
    (hF : Instantiations.is_function Val F = true) (v : Val F) :
    Callable.ctor fuel h .lvalue F v = .error .out_of_fuel := by
  simp [Callable.ctor, hF, ctor_forward_wrapper_diverges]

theorem make_ok [Instantiations Ty Val]
    {fuel : Nat} {h h1 : Heap Ty Val} {cat : Category} {F : Ty} {v : Val F}
    {c : Callable Ty Val} (hm : Callable.ctor fuel h cat F v = .ok (h1, c)) :
    h1 = h ∧ c = .value F v := by
  unfold Callable.ctor at hm
  split at hm
  · cases cat with
    | rvalue =>
      cases Except.ok.inj hm
      exact ⟨rfl, rfl⟩
    | const_lvalue =>
      simp only at hm
      split at hm
      · simp [clone_wrapper_diverges] at hm
      · cases Except.ok.inj hm
        exact ⟨rfl, rfl⟩
    | lvalue => simp [ctor_forward_wrapper_diverges] at hm
    | const_rvalue => simp [ctor_forward_wrapper_diverges] at hm
  · cases Except.ok.inj hm
    exact ⟨rfl, rfl⟩

theorem clone_value_ordinary [Instantiations Ty Val] (fuel : Nat) (h : Heap Ty Val) {F : Ty}
    (hF : Instantiations.is_function Val F = false) (v : Val F) :
    Callable.clone fuel h (.value F v) = .ok (h ++ [some (.value F v)], h.length) := by
  simp [Callable.clone, make_ordinary fuel h .lvalue hF v, Heap.make_unique]

theorem clone_value_function [Instantiations Ty Val] (fuel : Nat) (h : Heap Ty Val) {F : Ty}
    (hF : Instantiations.is_function Val F = true) (v : Val F) :
    Callable.clone fuel h (.value F v) = .error .out_of_fuel := by
  simp [Callable.clone, make_lvalue_function fuel h hF v]

theorem clone_value_ok [Instantiations Ty Val]
    {fuel : Nat} {h h1 : Heap Ty Val} {F : Ty} {v : Val F} {q : Nat}
    (hc : Callable.clone fuel h (.value F v) = .ok (h1, q)) :
    Instantiations.is_function Val F = false ∧
      h1 = h ++ [some (.value F v)] ∧ q = h.length := by
  cases hF : Instantiations.is_function Val F with
  | true => simp [clone_value_function fuel h hF v] at hc
  | false =>
    rw [clone_value_ordinary fuel h hF v] at hc
    cases Except.ok.inj hc
    exact ⟨rfl, rfl, rfl⟩

theorem construct_callable_ok [Instantiations Ty Val]
    {fuel : Nat} {s s1 : State Ty Val} {this : Nat} {cat : Category}
    {F : Ty} {v : Val F} (hc : function.construct fuel s this (.callable cat F v) = .ok s1) :
    s1 = { heap := s.heap ++ [some (.value F v)],
           objs := Function.update s.objs this ⟨some s.heap.length⟩ } := by
  simp only [function.construct, function.ctor_forward] at hc
  cases hm : Callable.ctor fuel s.heap cat F v with
  | error e => simp [hm] at hc
  | ok x =>
    obtain ⟨h1, c⟩ := x
    obtain ⟨rfl, rfl⟩ := make_ok hm
    simp only [hm] at hc
    exact (Except.ok.inj hc).symm

theorem construct_callable_holds [Instantiations Ty Val]
    (fuel : Nat) (s : State Ty Val) (this : Nat)
    (cat : Category) {F : Ty} (hF : Instantiations.is_function Val F = false) (v : Val F) :
    ∃ s1, function.construct fuel s this (.callable cat F v) = .ok s1 ∧
      s1.holds this s.heap.length F v ∧
      s1.heap = s.heap ++ [some (.value F v)] ∧
      ∀ w, w ≠ this → s1.objs w = s.objs w := by
  refine ⟨{ heap := s.heap ++ [some (.value F v)],
            objs := Function.update s.objs this ⟨some s.heap.length⟩ }, ?_, ⟨?_, ?_⟩, rfl, ?_⟩
  · simp [function.construct, function.ctor_forward, make_ordinary fuel s.heap cat hF v,
      Heap.make_unique]
  · simp
  · exact Heap.read_make_unique_new s.heap (.value F v)
  · intro w hw
    simp [Function.update, hw]

theorem construct_lvalue_function [Instantiations Ty Val]
    (fuel : Nat) (s : State Ty Val) (this : Nat) {F : Ty}
    (hF : Instantiations.is_function Val F = true) (v : Val F) :
    function.construct fuel s this (.callable .lvalue F v) = .error .out_of_fuel := by
  simp [function.construct, function.ctor_forward, make_lvalue_function fuel s.heap hF v]

theorem construct_copy_empty [Instantiations Ty Val]
    (fuel : Nat) {s : State Ty Val} (this : Nat) {other : Nat}
    (ho : (s.objs other).callable_ = none) :
    function.construct fuel s this (.wrapper .const_lvalue other)
      = .ok (s.set this ⟨none⟩) := by
  simp [function.construct, function.ctor_copy, ho]

theorem construct_copy_holds [Instantiations Ty Val]
    (fuel : Nat) {s : State Ty Val} (this : Nat) {other p : Nat}
    {F : Ty} {v : Val F} (ho : s.holds other p F v)
    (hF : Instantiations.is_function Val F = false) :
    function.construct fuel s this (.wrapper .const_lvalue other)
      = .ok { heap := s.heap ++ [some (.value F v)],
              objs := Function.update s.objs this ⟨some s.heap.length⟩ } := by
  simp [function.construct, function.ctor_copy, ho.1, ho.2, clone_value_ordinary fuel s.heap hF v]

theorem construct_copy_function [Instantiations Ty Val]
    (fuel : Nat) {s : State Ty Val} (this : Nat) {other p : Nat}
    {F : Ty} {v : Val F} (ho : s.holds other p F v)
    (hF : Instantiations.is_function Val F = true) :
    function.construct fuel s this (.wrapper .const_lvalue other) = .error .out_of_fuel := by
  simp [function.construct, function.ctor_copy, ho.1, ho.2, clone_value_function fuel s.heap hF v]

/-! ## Runs of calls -/

theorem holds_congr {s t : State Ty Val} {w p : Nat} {F : Ty} {v : Val F}
    (hs : s.holds w p F v) (ho : t.objs w = s.objs w) (hh : t.heap.read p = s.heap.read p) :
    t.holds w p F v :=
  ⟨by rw [ho]; exact hs.1, by rw [hh]; exact hs.2⟩

theorem call_seq_holds (call : (F : Ty) → Val F → Args → R × Val F) (fuel : Nat) (w p : Nat)
    (F : Ty) (argss : List Args) :
    ∀ (s : State Ty Val) (v : Val F), s.holds w p F v →
      ∃ s1, function.call_seq call fuel w s argss = .ok ((run_calls call F v argss).1, s1) ∧
        s1.holds w p F (run_calls call F v argss).2 ∧
        s1.objs = s.objs ∧
        ∀ q, q ≠ p → s1.heap.read q = s.heap.read q := by
  induction argss with
  | nil =>
    intro s v hs
    exact ⟨s, rfl, hs, rfl, fun _ _ => rfl⟩
  | cons args rest ih =>
    intro s v hs
    obtain ⟨s2, h2, hh2, ho2, hf2⟩ := ih _ _ (operator_call_holds call hs args)
    refine ⟨s2, ?_, hh2, ho2, ?_⟩
    · simp [function.call_seq, operator_call_value call fuel hs args, h2, run_calls]
    · intro q hq
      rw [hf2 q hq]
      exact Heap.read_set_other _ _ hq

theorem calls_independent (call : (F : Ty) → Val F → Args → R × Val F) (fuel : Nat)
    {s : State Ty Val} {a b pa pb : Nat} {F G : Ty} {v : Val F} {u : Val G}
    (ha : s.holds a pa F v) (hb : s.holds b pb G u) (hne : pa ≠ pb) (xs ys : List Args) :
    ∃ sa sb, function.call_seq call fuel a s xs = .ok ((run_calls call F v xs).1, sa) ∧
      function.call_seq call fuel b s ys = .ok ((run_calls call G u ys).1, sb) ∧
      (∃ t, function.call_seq call fuel b sa ys = .ok ((run_calls call G u ys).1, t)) ∧
      (∃ t, function.call_seq call fuel a sb xs = .ok ((run_calls call F v xs).1, t)) := by
  obtain ⟨sa, hsa, -, hoa, hfa⟩ := call_seq_holds call fuel a pa F xs s v ha
  obtain ⟨sb, hsb, -, hob, hfb⟩ := call_seq_holds call fuel b pb G ys s u hb
  have hb1 : sa.holds b pb G u := holds_congr hb (by rw [hoa]) (hfa pb (Ne.symm hne))
  have ha1 : sb.holds a pa F v := holds_congr ha (by rw [hob]) (hfb pa hne)
  obtain ⟨t1, ht1, -⟩ := call_seq_holds call fuel b pb G ys sa u hb1
  obtain ⟨t2, ht2, -⟩ := call_seq_holds call fuel a pa F xs sb v ha1
  exact ⟨sa, sb, hsa, hsb, ⟨t1, ht1⟩, ⟨t2, ht2⟩⟩

/-! ## Copy assignment -/

theorem release_value (fuel : Nat) (h : Heap Ty Val) (old : Option Nat)
    (hold : ∀ q, old = some q → ∃ G w, h.read q = some (.value G w)) :
    Heap.release fuel h old
      = .ok (h.without old) := by
  cases old with
  | none => rfl
  | some q =>
    obtain ⟨G, w, hq⟩ := hold q rfl
    cases fuel <;> simp [Heap.release, Heap.delete, hq, Heap.without]

theorem released_read {h : Heap Ty Val} {old : Option Nat} {p : Nat} (hp : old ≠ some p) :
    (h.without old).read p = h.read p := by
  cases old with
  | none => rfl
  | some q =>
    show Heap.read (h.set q none) p = _
    apply Heap.read_set_other
    intro hpq
    exact hp (by rw [hpq])

theorem released_read_old {h : Heap Ty Val} {q : Nat} (hq : q < h.length) :
    (h.without (some q)).read q = none :=
  Heap.read_set_same h none hq

theorem read_append_of_read {h : Heap Ty Val} {q : Nat} {c : Callable Ty Val}
    (x : Callable Ty Val) (hq : h.read q = some c) :
    Heap.read (h ++ [some x]) q = some c := by
  have hlt := Heap.read_lt hq
  have := Heap.read_make_unique_old h x (Nat.ne_of_lt hlt)
  simp only [Heap.make_unique] at this
  rw [this, hq]

theorem assign_copy_holds [Instantiations Ty Val]
    (fuel : Nat) {s : State Ty Val} {t o p : Nat} {F : Ty} {v : Val F}
    (hto : t ≠ o) (ho : s.holds o p F v) (hF : Instantiations.is_function Val F = false)
    (ht : ∀ q, (s.objs t).callable_ = some q → ∃ G w, s.heap.read q = some (.value G w)) :
    function.operator_assign_copy fuel s t o
      = .ok { state :=
                { heap := Heap.without (s.heap ++ [some (.value F v)]) (s.objs t).callable_,
                  objs := Function.update s.objs t ⟨some s.heap.length⟩ },
              returned := some t } := by
  have hrel := release_value fuel (s.heap ++ [some (.value F v)])
    (s.objs t).callable_ (fun q hq => by
      obtain ⟨G, w, hw⟩ := ht q hq
      exact ⟨G, w, read_append_of_read _ hw⟩)
  simp [function.operator_assign_copy, hto, function.clone_or_null, ho.1, ho.2,
    clone_value_ordinary fuel s.heap hF v, hrel]

theorem assign_copy_function [Instantiations Ty Val]
    (fuel : Nat) {s : State Ty Val} {t o p : Nat} {F : Ty}
    {v : Val F} (hto : t ≠ o) (ho : s.holds o p F v)
    (hF : Instantiations.is_function Val F = true) :
    function.operator_assign_copy fuel s t o = .error .out_of_fuel := by
  simp [function.operator_assign_copy, hto, function.clone_or_null, ho.1, ho.2,
    clone_value_function fuel s.heap hF v]

theorem assign_copy_empty [Instantiations Ty Val] (fuel : Nat) {s : State Ty Val} {t o : Nat}
    (hto : t ≠ o) (ho : (s.objs o).callable_ = none)
    (ht : ∀ q, (s.objs t).callable_ = some q → ∃ G w, s.heap.read q = some (.value G w)) :
    function.operator_assign_copy fuel s t o
      = .ok { state :=
                { heap := s.heap.without (s.objs t).callable_,
                  objs := Function.update s.objs t ⟨none⟩ },
              returned := some t } := by
  have hrel := release_value fuel s.heap (s.objs t).callable_ ht
  simp [function.operator_assign_copy, hto, function.clone_or_null, ho, hrel]

/-- After b is made as a copy of a wrapper a that holds a callable whose type is no
instantiation of function, by copy construction from a const lvalue or by copy assignment
(onto a b that is empty or holds an adapter of its own), runs of calls on a and on b do not
influence each other's results. -/
theorem copy_independence_ordinary [Instantiations Ty Val]
    (call : (F : Ty) → Val F → Args → R × Val F) (fuel : Nat)
    (s : State Ty Val) (a b p : Nat) (F : Ty) (v : Val F) (hab : a ≠ b)
    (ha : s.holds a p F v) (hF : Instantiations.is_function Val F = false)
    (xs ys : List Args) :
    (∃ s1, function.construct fuel s b (.wrapper .const_lvalue a) = .ok s1 ∧
      independent_runs call fuel s1 a b xs ys) ∧
    ((∀ q, (s.objs b).callable_ = some q →
        q ≠ p ∧ ∃ G w, s.heap.read q = some (.value G w)) →
      ∃ r, function.operator_assign_copy fuel s b a = .ok r ∧
        independent_runs call fuel r.state a b xs ys) := by
  have hlt : p < s.heap.length := Heap.read_lt ha.2
  constructor
  · refine ⟨_, construct_copy_holds fuel b ha hF, ?_⟩
    have ha1 : State.holds
        ({ heap := s.heap ++ [some (.value F v)],
           objs := Function.update s.objs b ⟨some s.heap.length⟩ } : State Ty Val) a p F v :=
      ⟨by simp [Function.update, hab, ha.1], read_append_of_read _ ha.2⟩
    have hb1 : State.holds
        ({ heap := s.heap ++ [some (.value F v)],
           objs := Function.update s.objs b ⟨some s.heap.length⟩ } : State Ty Val) b s.heap.length F v :=
      ⟨by simp [Function.update], Heap.read_make_unique_new s.heap (.value F v)⟩
    obtain ⟨sa, sb, h1, h2, h3, h4⟩ :=
      calls_independent call fuel ha1 hb1 (Nat.ne_of_lt hlt) xs ys
    exact ⟨_, _, sa, sb, h1, h2, h3, h4⟩
  · intro hb
    refine ⟨_, assign_copy_holds fuel (Ne.symm hab) ha hF (fun q hq => (hb q hq).2), ?_⟩
    have hnew : Heap.read (s.heap ++ [some (Callable.value F v)]) s.heap.length
        = some (.value F v) := Heap.read_make_unique_new s.heap (.value F v)
    have ha1 : State.holds
        ({ heap := Heap.without (s.heap ++ [some (.value F v)]) (s.objs b).callable_,
           objs := Function.update s.objs b ⟨some s.heap.length⟩ } : State Ty Val) a p F v := by
      refine ⟨by simp [Function.update, hab, ha.1], ?_⟩
      show Heap.read _ p = _
      rw [released_read (fun hq => (hb p hq).1 rfl)]
      exact read_append_of_read _ ha.2
    have hb1 : State.holds
        ({ heap := Heap.without (s.heap ++ [some (.value F v)]) (s.objs b).callable_,
           objs := Function.update s.objs b ⟨some s.heap.length⟩ } : State Ty Val) b s.heap.length F v := by
      refine ⟨by simp [Function.update], ?_⟩
      show Heap.read _ s.heap.length = _
      rw [released_read (fun hq => by
        obtain ⟨-, G, w, hw⟩ := hb _ hq
        exact absurd (Heap.read_lt hw) (Nat.lt_irrefl _))]
      exact hnew
    obtain ⟨sa, sb, h1, h2, h3, h4⟩ :=
      calls_independent call fuel ha1 hb1 (Nat.ne_of_lt hlt) xs ys
    exact ⟨_, _, sa, sb, h1, h2, h3, h4⟩

theorem sample_two_holds_counter : sample_two.holds 0 0 .counter 5 :=
  ⟨rfl, rfl⟩

theorem sample_two_holds_adder : sample_two.holds 1 1 .adder 7 :=
  ⟨rfl, rfl⟩

theorem sample_two_sound (w : Nat) : sample_two.sound w := by
  intro p hp
  by_cases h0 : w = 0
  · subst h0
    have : p = 0 := by simpa [sample_two] using hp.symm
    subst this
    exact ⟨.counter, 5, rfl⟩
  · by_cases h1 : w = 1
    · subst h1
      have : p = 1 := by simpa [sample_two] using hp.symm
      subst this
      exact ⟨.adder, 7, rfl⟩
    · simp [sample_two, h0, h1] at hp

theorem sample_nested_holds : sample_nested.holds 0 0 .inner 7 :=
  ⟨rfl, rfl⟩

/-- C6: after a new wrapper b is move-constructed from a, a converts to false, b is empty
exactly when a was, and the target type and the call results of b are those a had before. -/
theorem move_construct [Instantiations Ty Val]
    (call : (F : Ty) → Val F → Args → R × Val F) (fuel : Nat)
    (s : State Ty Val) (a b : Nat) (hab : a ≠ b) :
    ∃ s1, function.construct fuel s b (.wrapper .rvalue a) = .ok s1 ∧
      function.operator_bool s1 a = false ∧
      function.operator_bool s1 b = function.operator_bool s a ∧
      function.target_type s1 b = function.target_type s a ∧
      (∀ args, (function.operator_call call fuel s1 b args).map Prod.fst
        = (function.operator_call call fuel s a args).map Prod.fst) ∧
      s1.objs b = s.objs a ∧ s1.heap = s.heap := by
  refine ⟨_, rfl, ?_, ?_, ?_, ?_, ?_, rfl⟩
  · simp [function.operator_bool, function.ctor_move, State.set, Function.update, hab]
  · simp [function.operator_bool, function.ctor_move, State.set, Function.update]
  · simp [function.target_type, function.ctor_move, State.set, Function.update]
  · intro args
    simp only [function.operator_call, function.ctor_move, State.set, Function.update_same]
    cases invoke call fuel s.heap (s.objs a).callable_ args with
    | error e => rfl
    | ok x => rfl
  · simp [function.ctor_move, State.set, Function.update]

theorem move_construct_witness :
    (0 : Nat) ≠ 2 ∧
      ∃ s1, function.construct 0 sample_two 2 (.wrapper .rvalue 0) = .ok s1 ∧
        function.operator_bool s1 0 = false ∧
        function.operator_bool s1 2 = function.operator_bool sample_two 0 ∧
        function.target_type s1 2 = function.target_type sample_two 0 ∧
        (∀ args, (function.operator_call sample_call 0 s1 2 args).map Prod.fst
          = (function.operator_call sample_call 0 sample_two 0 args).map Prod.fst) ∧
        s1.objs 2 = sample_two.objs 0 ∧ s1.heap = sample_two.heap :=
  ⟨by decide, move_construct sample_call 0 sample_two 0 2 (by decide)⟩

theorem assign_move_sound (fuel : Nat) {s : State Ty Val} {t o : Nat} (hto : t ≠ o)
    (ht : s.sound t) :
    function.operator_assign_move fuel s t o
      = .ok { state :=
                { heap := s.heap.without (s.objs t).callable_,
                  objs := Function.update (Function.update s.objs o ⟨none⟩) t
                    ⟨(s.objs o).callable_⟩ },
              returned := none } := by
  have hrel := release_value fuel s.heap (s.objs t).callable_ ht
  simp [function.operator_assign_move, State.set, Function.update, hto, hrel]

/-- C7: for distinct wrappers a and b, the move assignment of b to a completes the transfer
(a takes the handle b had, b is left empty, the adapter a held before is deleted), and its
body ends without a return statement: no reference to a is returned. -/
theorem move_assign_no_return (fuel : Nat) (s : State Ty Val) (a b : Nat) (hab : a ≠ b)
    (ha : s.sound a) :
    ∃ r, function.operator_assign_move fuel s a b = .ok r ∧
      r.returned = none ∧
      r.state.objs a = s.objs b ∧
      (r.state.objs b).callable_ = none ∧
      r.state.heap = s.heap.without (s.objs a).callable_ := by
  refine ⟨_, assign_move_sound fuel hab ha, rfl, ?_, ?_, rfl⟩
  · simp [Function.update]
  · simp [Function.update, Ne.symm hab]

theorem move_assign_no_return_witness :
    (0 : Nat) ≠ 1 ∧ sample_two.sound 0 ∧
      ∃ r, function.operator_assign_move 0 sample_two 0 1 = .ok r ∧
        r.returned = none ∧
        r.state.objs 0 = sample_two.objs 1 ∧
        (r.state.objs 1).callable_ = none ∧
        r.state.heap = sample_two.heap.without (sample_two.objs 0).callable_ :=
  ⟨by decide, sample_two_sound 0,
    move_assign_no_return 0 sample_two 0 1 (by decide) (sample_two_sound 0)⟩

/-! ## Copy assignment between distinct wrappers, and onto itself -/

theorem operator_call_result_congr (call : (F : Ty) → Val F → Args → R × Val F) (fuel : Nat)
    {s t : State Ty Val} {a b p : Nat} {F : Ty} {v : Val F}
    (ha : s.holds a p F v) {q : Nat} (hb : t.holds b q F v) (args : Args) :
    (function.operator_call call fuel s a args).map Prod.fst
      = (function.operator_call call fuel t b args).map Prod.fst := by
  rw [operator_call_value call fuel ha args, operator_call_value call fuel hb args]
  rfl

/-- For distinct wrappers a and b, b empty or holding a callable whose type is no
instantiation of function, the copy assignment of b to a returns a reference to a and makes a
empty exactly when b is; a then reports the target type of b and returns on every call what b
returns, whatever a held before; a holds a fresh adapter of its own, the adapter a held before
is deleted, and b and its adapter are unchanged. -/
theorem copy_assign_distinct_ordinary [Instantiations Ty Val]
    (call : (F : Ty) → Val F → Args → R × Val F)
    (fuel : Nat) (s : State Ty Val) (a b : Nat) (hab : a ≠ b) (hb : s.sound b)
    (hbF : ∀ p F v, s.holds b p F v → Instantiations.is_function Val F = false)
    (ha : ∀ q, (s.objs a).callable_ = some q →
      (s.objs b).callable_ ≠ some q ∧ ∃ G w, s.heap.read q = some (.value G w)) :
    ∃ r, function.operator_assign_copy fuel s a b = .ok r ∧
      r.returned = some a ∧
      function.operator_bool r.state a = function.operator_bool s b ∧
      function.target_type r.state a = function.target_type s b ∧
      (∀ args, (function.operator_call call fuel r.state a args).map Prod.fst
        = (function.operator_call call fuel s b args).map Prod.fst) ∧
      r.state.objs b = s.objs b ∧
      (∀ p, (s.objs b).callable_ = some p → r.state.heap.read p = s.heap.read p) ∧
      (∀ p, (r.state.objs a).callable_ = some p →
        (s.objs b).callable_ ≠ some p ∧ s.heap.read p = none) ∧
      (∀ q, (s.objs a).callable_ = some q → r.state.heap.read q = none) := by
  cases hbc : (s.objs b).callable_ with
  | none =>
    refine ⟨_, assign_copy_empty fuel hab hbc (fun q hq => (ha q hq).2), rfl, ?_, ?_, ?_, ?_,
      ?_, ?_, ?_⟩
    · simp [function.operator_bool, hbc]
    · simp [function.target_type, hbc]
    · intro args
      simp [function.operator_call, hbc, invoke]
    · simp [Function.update, Ne.symm hab]
    · intro p hp
      simp at hp
    · intro p hp
      simp [Function.update] at hp
    · intro q hq
      obtain ⟨-, G, w, hw⟩ := ha q hq
      show Heap.read (s.heap.without _) q = none
      rw [hq]
      exact released_read_old (Heap.read_lt hw)
  | some p =>
    obtain ⟨F, v, hp⟩ := hb p hbc
    have hbh : s.holds b p F v := ⟨hbc, hp⟩
    have hlt : p < s.heap.length := Heap.read_lt hp
    have hnp : (s.objs a).callable_ ≠ some p := fun hq => (ha p hq).1 hbc
    have hnl : (s.objs a).callable_ ≠ some s.heap.length := fun hq => by
      obtain ⟨-, G, w, hw⟩ := ha _ hq
      exact absurd (Heap.read_lt hw) (Nat.lt_irrefl _)
    have hah : State.holds
        ({ heap := Heap.without (s.heap ++ [some (.value F v)]) (s.objs a).callable_,
           objs := Function.update s.objs a ⟨some s.heap.length⟩ } : State Ty Val) a s.heap.length F v := by
      refine ⟨by simp [Function.update], ?_⟩
      show Heap.read (Heap.without _ _) s.heap.length = _
      rw [released_read hnl]
      exact Heap.read_make_unique_new s.heap (.value F v)
    refine ⟨_, assign_copy_holds fuel hab hbh (hbF p F v hbh) (fun q hq => (ha q hq).2), rfl,
      ?_, ?_, ?_, ?_, ?_, ?_, ?_⟩
    · simp [function.operator_bool, hbc, Function.update]
    · simp [function.target_type, hbc, hp, hah.1, hah.2]
    · intro args
      exact operator_call_result_congr call fuel hah hbh args
    · simp [Function.update, Ne.symm hab]
    · intro p1 hp1
      have hpp : p1 = p := by simpa using hp1.symm
      subst hpp
      show Heap.read (Heap.without _ _) p1 = _
      rw [released_read hnp, read_append_of_read _ hp, hp]
    · intro p1 hp1
      have hpp : p1 = s.heap.length := by simpa [Function.update] using hp1.symm
      subst hpp
      refine ⟨fun h => ?_, ?_⟩
      · have : p = s.heap.length := by simpa using h
        omega
      · by_contra hne
        obtain ⟨c, hc⟩ := Option.ne_none_iff_exists'.mp hne
        exact absurd (Heap.read_lt hc) (Nat.lt_irrefl _)
    · intro q hq
      obtain ⟨-, G, w, hw⟩ := ha q hq
      show Heap.read (Heap.without _ _) q = none
      rw [hq]
      apply released_read_old
      simp
      exact Nat.lt_succ_of_lt (Heap.read_lt hw)

/-- C8: when b holds a callable that is itself an instantiation of function, the copy
assignment of b to a distinct wrapper a does not complete: it reaches clone, which hands the
held callable as a non-const lvalue to the forwarding constructor, and does not finish with
any amount of fuel; a never comes to hold what b holds. -/
theorem copy_assign_held_function_diverges [Instantiations Ty Val]
    (fuel : Nat) (s : State Ty Val) (a b p : Nat)
    (F : Ty) (v : Val F) (hab : a ≠ b) (hb : s.holds b p F v)
    (hF : Instantiations.is_function Val F = true) :
    function.operator_assign_copy fuel s a b = .error .out_of_fuel :=
  assign_copy_function fuel hab hb hF

theorem copy_assign_held_function_diverges_witness :
    (1 : Nat) ≠ 0 ∧ sample_nested.holds 0 0 .inner 7 ∧
      Instantiations.is_function SampleVal SampleTy.inner = true ∧
      function.operator_assign_copy 10 sample_nested 1 0 = .error .out_of_fuel :=
  ⟨by decide, sample_nested_holds, rfl,
    copy_assign_held_function_diverges 10 sample_nested 1 0 0 .inner 7 (by decide)
      sample_nested_holds rfl⟩

/-- C9: the copy assignment of a wrapper to itself returns a reference to it and leaves the
whole state as it was: same handle, same adapter, nothing deleted and nothing cloned. -/
theorem copy_assign_self [Instantiations Ty Val] (fuel : Nat) (s : State Ty Val) (a : Nat) :
    function.operator_assign_copy fuel s a a = .ok { state := s, returned := some a } := by
  simp [function.operator_assign_copy]

/-! ## Calling -/

/-- C10: on a wrapper that is empty or holds a callable, a call ends in the dereference of a
null handle exactly when the wrapper is empty, and otherwise returns the result of the held
callable and leaves in the adapter the value the call left. -/
theorem call_fails_iff_empty (call : (F : Ty) → Val F → Args → R × Val F) (fuel : Nat)
    (s : State Ty Val) (w : Nat) (hw : s.sound w) (args : Args) :
    (function.operator_call call fuel s w args = .error .null_deref ↔
      function.operator_bool s w = false) ∧
    (function.operator_bool s w = true →
      ∃ p F v, s.holds w p F v ∧
        function.operator_call call fuel s w args
          = .ok ((call F v args).1,
              { s with heap := s.heap.write p (.value F (call F v args).2) })) := by
  cases hc : (s.objs w).callable_ with
  | none =>
    simp [function.operator_call, function.operator_bool, hc, invoke]
  | some p =>
    obtain ⟨F, v, hp⟩ := hw p hc
    have hh : s.holds w p F v := ⟨hc, hp⟩
    refine ⟨?_, fun _ => ⟨p, F, v, hh, operator_call_value call fuel hh args⟩⟩
    rw [operator_call_value call fuel hh args]
    simp [function.operator_bool, hc]

theorem call_fails_iff_empty_witness :
    sample_two.sound 0 ∧
      (function.operator_call sample_call 0 sample_two 0 3 = .error .null_deref ↔
        function.operator_bool sample_two 0 = false) ∧
      (function.operator_bool sample_two 0 = true →
        ∃ p F v, sample_two.holds 0 p F v ∧
          function.operator_call sample_call 0 sample_two 0 3
            = .ok ((sample_call F v 3).1,
                { sample_two with
                  heap := sample_two.heap.write p (.value F (sample_call F v 3).2) })) :=
  ⟨sample_two_sound 0, call_fails_iff_empty sample_call 0 sample_two 0 (sample_two_sound 0) 3⟩

/-! ## The index sequence -/

theorem make_index_sequence_impl_eq (N : Nat) :
    ∀ index : index_sequence, make_index_sequence_impl N index = List.range N ++ index := by
  induction N with
  | zero => intro index; simp [make_index_sequence_impl]
  | succ n ih =>
    intro index
    rw [make_index_sequence_impl, ih, List.range_succ]
    simp

/-- C12: for every N, make_index_sequence of N is the sequence 0, 1, ..., N-1 in increasing
order (the recursion is total); for 0 it is the empty sequence and for 5 it is 0,1,2,3,4. -/
theorem make_index_sequence_eq (N : Nat) :
    make_index_sequence N = List.range N ∧
      (make_index_sequence N).length = N ∧
      (∀ i (hi : i < (make_index_sequence N).length), (make_index_sequence N).get ⟨i, hi⟩ = i) ∧
      make_index_sequence 0 = [] ∧
      make_index_sequence 5 = [0, 1, 2, 3, 4] := by
  have h : ∀ M, make_index_sequence M = List.range M := fun M => by
    simp [make_index_sequence, make_index_sequence_impl_eq]
  refine ⟨h N, by simp [h], ?_, rfl, rfl⟩
  intro i hi
  simp [h]

/-! ## Construction from a callable -/

/-- A wrapper built from a value v of a callable type that is no instantiation of function,
passed in any category, and then called with args returns v(args). -/
theorem construct_then_call_ordinary [Instantiations Ty Val]
    (call : (F : Ty) → Val F → Args → R × Val F)
    (fuel : Nat) (s : State Ty Val) (this : Nat) (cat : Category) {F : Ty}
    (hF : Instantiations.is_function Val F = false) (v : Val F) (args : Args) :
    ∃ s2, construct_then_call call fuel s this (.callable cat F v) args
      = .ok ((call F v args).1, s2) := by
  obtain ⟨s1, hc, hh, -, -⟩ := construct_callable_holds fuel s this cat hF v
  refine ⟨{ s1 with heap := s1.heap.write s.heap.length (.value F (call F v args).2) }, ?_⟩
  simp only [construct_then_call, hc, operator_call_value call fuel hh args]

/-- For a wrapper built from a value v of a callable type F that is no instantiation of
function, target for F is a non-null pointer to a held value equal to v, and target for every
other type is null. -/
theorem target_after_construct_ordinary [Instantiations Ty Val]
    [DecidableEq Ty] (fuel : Nat) (s : State Ty Val)
    (this : Nat) (cat : Category) {F : Ty} (hF : Instantiations.is_function Val F = false)
    (v : Val F) :
    ∃ s1, function.construct fuel s this (.callable cat F v) = .ok s1 ∧
      (∃ p, function.target s1 this (.of F) = .ok (some p) ∧
        s1.heap.read p = some (.value F v)) ∧
      ∀ G : type_info Ty, G ≠ .of F → function.target s1 this G = .ok none := by
  obtain ⟨s1, hc, hh, -, -⟩ := construct_callable_holds fuel s this cat hF v
  refine ⟨s1, hc, ⟨s.heap.length, ?_, hh.2⟩, ?_⟩
  · simp [function.target, function.target_type, hh.1, hh.2, Callable.target_type]
  · intro G hG
    simp [function.target, function.target_type, hh.1, hh.2, Callable.target_type, Ne.symm hG]

/-- For every value v of a callable type F that is no instantiation of function, passed in
any category, the construction from v completes, the wrapper converts to true, and its target
type is the identity of F. -/
theorem construct_callable_is_holding_ordinary [Instantiations Ty Val]
    (fuel : Nat) (s : State Ty Val) (this : Nat)
    (cat : Category) {F : Ty} (hF : Instantiations.is_function Val F = false) (v : Val F) :
    ∃ s1, function.construct fuel s this (.callable cat F v) = .ok s1 ∧
      function.operator_bool s1 this = true ∧
      function.target_type s1 this = .ok (.of F) := by
  obtain ⟨s1, hc, hh, -, -⟩ := construct_callable_holds fuel s this cat hF v
  refine ⟨s1, hc, ?_, ?_⟩
  · simp [function.operator_bool, hh.1]
  · simp [function.target_type, hh.1, hh.2, Callable.target_type]

/-- C1: when the callable value v is a non-const lvalue whose type is an instantiation of
function (of the wrapper's own signature, or of another one), building the wrapper from v and
calling it yields no result: the construction does not finish with any amount of fuel. -/
theorem construct_then_call_diverges [Instantiations Ty Val]
    (call : (F : Ty) → Val F → Args → R × Val F)
    (fuel : Nat) (s : State Ty Val) (this other : Nat) (F : Ty) (v : Val F) (args : Args)
    (hF : Instantiations.is_function Val F = true) :
    construct_then_call call fuel s this (.callable .lvalue F v) args = .error .out_of_fuel ∧
      construct_then_call call fuel s this (.wrapper .lvalue other) args
        = .error .out_of_fuel := by
  constructor
  · simp [construct_then_call, construct_lvalue_function fuel s this hF v]
  · simp [construct_then_call, function.construct, function.ctor_forward,
      ctor_forward_wrapper_diverges]

theorem construct_then_call_diverges_witness :
    Instantiations.is_function SampleVal SampleTy.inner = true ∧
      construct_then_call sample_call 10 sample_two 2 (.callable .lvalue .inner 7) 3
        = .error .out_of_fuel ∧
      construct_then_call sample_call 10 sample_two 2 (.wrapper .lvalue 0) 3
        = .error .out_of_fuel :=
  ⟨rfl, construct_then_call_diverges sample_call 10 sample_two 2 0 .inner 7 3 rfl⟩

/-- C14: for a value v of a type invocable as R(Args...) that is an instantiation of
function, passed as a non-const lvalue or as a const rvalue, the construction from v does not
terminate: with any amount of fuel it has not produced a wrapper. -/
theorem construct_from_function_diverges [Instantiations Ty Val]
    (fuel : Nat) (s : State Ty Val) (this : Nat)
    (F : Ty) (v : Val F) (hF : Instantiations.is_function Val F = true) :
    function.construct fuel s this (.callable .lvalue F v) = .error .out_of_fuel ∧
      function.construct fuel s this (.callable .const_rvalue F v) = .error .out_of_fuel := by
  constructor
  · exact construct_lvalue_function fuel s this hF v
  · simp [function.construct, function.ctor_forward, Callable.ctor, hF,
      ctor_forward_wrapper_diverges]

theorem construct_from_function_diverges_witness :
    Instantiations.is_function SampleVal SampleTy.inner = true ∧
      function.construct 10 sample_init 0 (.callable .lvalue .inner 7) = .error .out_of_fuel ∧
      function.construct 10 sample_init 0 (.callable .const_rvalue .inner 7)
        = .error .out_of_fuel :=
  ⟨rfl, construct_from_function_diverges 10 sample_init 0 .inner 7 rfl⟩

theorem assign_move_self_eq (fuel : Nat) (s : State Ty Val) (a : Nat) :
    function.operator_assign_move fuel s a a = .ok { state := s, returned := none } := by
  have hs : Function.update (Function.update s.objs a ⟨none⟩) a ⟨(s.objs a).callable_⟩
      = s.objs := by
    funext w
    by_cases hw : w = a <;> simp [Function.update, hw]
  simp [function.operator_assign_move, State.set, Heap.release, hs]

/-- C18: the move assignment of a wrapper to itself runs the one statement of the body and
then reaches the closing brace without executing a return statement, in every state: the
operator, declared to return a reference, returns none. -/
theorem move_assign_self_no_return (fuel : Nat) (s : State Ty Val) (a : Nat) :
    ∃ r, function.operator_assign_move fuel s a a = .ok r ∧ r.returned = none :=
  ⟨_, assign_move_self_eq fuel s a, rfl⟩

/-! ## The pointer of `target` -/

theorem target_holds [DecidableEq Ty] {s : State Ty Val} {w p : Nat} {F : Ty} {v : Val F}
    (hw : s.holds w p F v) : function.target s w (.of F) = .ok (some p) := by
  simp [function.target, function.target_type, hw.1, hw.2, Callable.target_type]

theorem target_store_holds [DecidableEq Ty] {s : State Ty Val} {w p : Nat} {F : Ty}
    {v : Val F} (hw : s.holds w p F v) (u : Val F) :
    function.target_store s w F u = .ok { s with heap := s.heap.write p (.value F u) } := by
  simp [function.target_store, target_holds hw, store_through, hw.2]

/-- C16: for a wrapper holding a value of the callable type F, target for F is the address
of the held value itself: after a new value u is assigned through that pointer, target for F
returns the same pointer and reads back u, and every run of calls on the wrapper returns what
u returns. -/
theorem target_is_view [DecidableEq Ty] (call : (F : Ty) → Val F → Args → R × Val F)
    (fuel : Nat) (s : State Ty Val) (w p : Nat) (F : Ty) (v u : Val F)
    (hw : s.holds w p F v) :
    function.target s w (.of F) = .ok (some p) ∧
      ∃ s1, function.target_store s w F u = .ok s1 ∧
        function.target s1 w (.of F) = .ok (some p) ∧
        s1.heap.read p = some (.value F u) ∧
        (∀ args, ∃ s2, function.operator_call call fuel s1 w args
          = .ok ((call F u args).1, s2)) ∧
        ∀ argss, ∃ s2, function.call_seq call fuel w s1 argss
          = .ok ((run_calls call F u argss).1, s2) := by
  have h1 : State.holds ({ s with heap := s.heap.write p (.value F u) } : State Ty Val)
      w p F u := ⟨hw.1, Heap.read_set_same _ _ (Heap.read_lt hw.2)⟩
  refine ⟨target_holds hw, _, target_store_holds hw u, target_holds h1, h1.2, ?_, ?_⟩
  · intro args
    exact ⟨_, operator_call_value call fuel h1 args⟩
  · intro argss
    obtain ⟨s2, h2, -⟩ := call_seq_holds call fuel w p F argss _ u h1
    exact ⟨s2, h2⟩

theorem target_is_view_witness :
    sample_two.holds 0 0 .counter 5 ∧
      function.target sample_two 0 (.of .counter) = .ok (some 0) ∧
      ∃ s1, function.target_store sample_two 0 .counter 40 = .ok s1 ∧
        function.target s1 0 (.of .counter) = .ok (some 0) ∧
        s1.heap.read 0 = some (.value .counter 40) ∧
        (∀ args, ∃ s2, function.operator_call sample_call 0 s1 0 args
          = .ok ((sample_call .counter 40 args).1, s2)) ∧
        ∀ argss, ∃ s2, function.call_seq sample_call 0 0 s1 argss
          = .ok ((run_calls sample_call .counter 40 argss).1, s2) :=
  ⟨sample_two_holds_counter,
    target_is_view sample_call 0 sample_two 0 0 .counter 5 40 sample_two_holds_counter⟩

/-! ## Exclusive ownership is preserved by every operation -/

theorem wf_empty : (State.empty : State Ty Val).wf := by
  refine ⟨fun w p hp => ?_, fun w1 w2 p hp _ => ?_⟩ <;> simp [State.empty] at hp

theorem wf_set_none {s : State Ty Val} (hs : s.wf) (t : Nat) : (s.set t ⟨none⟩).wf := by
  refine ⟨fun w p hp => ?_, fun w1 w2 p h1 h2 => ?_⟩
  · by_cases hw : w = t
    · simp [State.set, Function.update, hw] at hp
    · simp only [State.set, Function.update, hw, dite_false] at hp
      exact hs.1 w p hp
  · by_cases hw1 : w1 = t
    · simp [State.set, Function.update, hw1] at h1
    · by_cases hw2 : w2 = t
      · simp [State.set, Function.update, hw2] at h2
      · simp only [State.set, Function.update, hw1, hw2, dite_false] at h1 h2
        exact hs.2 w1 w2 p h1 h2

theorem wf_alloc {s : State Ty Val} (hs : s.wf) (t : Nat) (F : Ty) (v : Val F) :
    State.wf ({ heap := s.heap ++ [some (.value F v)],
                objs := Function.update s.objs t ⟨some s.heap.length⟩ } : State Ty Val) := by
  have hfresh : ∀ w, (s.objs w).callable_ ≠ some s.heap.length := fun w hw => by
    obtain ⟨G, u, hu⟩ := hs.1 w _ hw
    exact absurd (Heap.read_lt hu) (Nat.lt_irrefl _)
  refine ⟨fun w p hp => ?_, fun w1 w2 p h1 h2 => ?_⟩
  · by_cases hw : w = t
    · have hp1 : p = s.heap.length := by simpa [Function.update, hw] using hp.symm
      subst hp1
      exact ⟨F, v, Heap.read_make_unique_new s.heap (.value F v)⟩
    · simp only [Function.update, hw, dite_false] at hp
      obtain ⟨G, u, hu⟩ := hs.1 w p hp
      exact ⟨G, u, read_append_of_read _ hu⟩
  · by_cases hw1 : w1 = t
    · by_cases hw2 : w2 = t
      · rw [hw1, hw2]
      · have hp1 : p = s.heap.length := by simpa [Function.update, hw1] using h1.symm
        simp only [Function.update, hw2, dite_false] at h2
        exact absurd (hp1 ▸ h2) (hfresh w2)
    · by_cases hw2 : w2 = t
      · have hp2 : p = s.heap.length := by simpa [Function.update, hw2] using h2.symm
        simp only [Function.update, hw1, dite_false] at h1
        exact absurd (hp2 ▸ h1) (hfresh w1)
      · simp only [Function.update, hw1, hw2, dite_false] at h1 h2
        exact hs.2 w1 w2 p h1 h2

theorem wf_move {s : State Ty Val} (hs : s.wf) (t o : Nat) :
    (function.ctor_move s t o).wf := by
  have key : ∀ w p, w ≠ t → ((function.ctor_move s t o).objs w).callable_ = some p →
      w ≠ o ∧ (s.objs w).callable_ = some p := by
    intro w p hw hp
    by_cases hwo : w = o
    · subst hwo
      simp [function.ctor_move, State.set, Function.update, hw] at hp
    · simp only [function.ctor_move, State.set, Function.update, hw, hwo, dite_false] at hp
      exact ⟨hwo, hp⟩
  have top : ((function.ctor_move s t o).objs t).callable_ = (s.objs o).callable_ := by
    simp [function.ctor_move, State.set, Function.update]
  refine ⟨fun w p hp => ?_, fun w1 w2 p h1 h2 => ?_⟩
  · by_cases hw : w = t
    · rw [hw, top] at hp
      exact hs.1 o p hp
    · exact hs.1 w p (key w p hw hp).2
  · by_cases hw1 : w1 = t
    · by_cases hw2 : w2 = t
      · rw [hw1, hw2]
      · obtain ⟨hne, h2s⟩ := key w2 p hw2 h2
        rw [hw1, top] at h1
        exact absurd (hs.2 w2 o p h2s h1) hne
    · by_cases hw2 : w2 = t
      · obtain ⟨hne, h1s⟩ := key w1 p hw1 h1
        rw [hw2, top] at h2
        exact absurd (hs.2 w1 o p h1s h2) hne
      · exact hs.2 w1 w2 p (key w1 p hw1 h1).2 (key w2 p hw2 h2).2

theorem wf_write {s : State Ty Val} (hs : s.wf) {p : Nat} {F : Ty} {v : Val F}
    (hp : s.heap.read p = some (.value F v)) (u : Val F) :
    State.wf ({ s with heap := s.heap.write p (.value F u) } : State Ty Val) := by
  refine ⟨fun w q hq => ?_, hs.2⟩
  by_cases hqp : q = p
  · subst hqp
    exact ⟨F, u, Heap.read_set_same _ _ (Heap.read_lt hp)⟩
  · obtain ⟨G, x, hx⟩ := hs.1 w q hq
    exact ⟨G, x, by
      show Heap.read (s.heap.set p _) q = _
      rw [Heap.read_set_other _ _ hqp, hx]⟩

theorem wf_release {s : State Ty Val} (hs : s.wf) (t : Nat) :
    State.wf ({ heap := s.heap.without (s.objs t).callable_,
                objs := Function.update s.objs t ⟨none⟩ } : State Ty Val) := by
  have key : ∀ w p, (Function.update s.objs t ⟨none⟩ w).callable_ = some p →
      w ≠ t ∧ (s.objs w).callable_ = some p := by
    intro w p hp
    by_cases hw : w = t
    · simp [Function.update, hw] at hp
    · simp only [Function.update, hw, dite_false] at hp
      exact ⟨hw, hp⟩
  refine ⟨fun w p hp => ?_, fun w1 w2 p h1 h2 => ?_⟩
  · obtain ⟨hw, hps⟩ := key w p hp
    obtain ⟨G, u, hu⟩ := hs.1 w p hps
    refine ⟨G, u, ?_⟩
    show Heap.read (s.heap.without _) p = _
    rw [released_read (fun ht => hw (hs.2 w t p hps ht)), hu]
  · exact hs.2 w1 w2 p (key w1 p h1).2 (key w2 p h2).2

theorem without_length (h : Heap Ty Val) (old : Option Nat) :
    (h.without old).length = h.length := by
  cases old <;> simp [Heap.without]

theorem without_append (h : Heap Ty Val) (old : Option Nat) (x : Option (Callable Ty Val))
    (hold : ∀ q, old = some q → q < h.length) :
    Heap.without (h ++ [x]) old = h.without old ++ [x] := by
  cases old with
  | none => rfl
  | some q =>
    show List.set (h ++ [x]) q none = List.set h q none ++ [x]
    exact List.set_append_left _ _ (hold q rfl)

theorem wf_assign_copy_holds {s : State Ty Val} (hs : s.wf) (t : Nat) (F : Ty) (v : Val F) :
    State.wf ({ heap := Heap.without (s.heap ++ [some (.value F v)]) (s.objs t).callable_,
                objs := Function.update s.objs t ⟨some s.heap.length⟩ } : State Ty Val) := by
  have hlt : ∀ q, (s.objs t).callable_ = some q → q < s.heap.length := fun q hq => by
    obtain ⟨G, u, hu⟩ := hs.1 t q hq
    exact Heap.read_lt hu
  have h := wf_alloc (wf_release hs t) t F v
  simp only [without_length, Function.update_idem] at h
  rw [without_append _ _ _ hlt]
  exact h

theorem wf_assign_move {s : State Ty Val} (hs : s.wf) {t o : Nat} (hto : t ≠ o) :
    State.wf ({ heap := s.heap.without (s.objs t).callable_,
                objs := Function.update (Function.update s.objs o ⟨none⟩) t
                  ⟨(s.objs o).callable_⟩ } : State Ty Val) := by
  have h := wf_move (wf_release hs t) t o
  have ho : Function.update (Function.update (Function.update s.objs t ⟨none⟩) o ⟨none⟩) t
      ⟨(Function.update s.objs t ⟨none⟩ o).callable_⟩
      = Function.update (Function.update s.objs o ⟨none⟩) t ⟨(s.objs o).callable_⟩ := by
    funext w
    by_cases hw : w = t
    · subst hw
      simp [Function.update, Ne.symm hto]
    · by_cases hwo : w = o
      · subst hwo
        simp [Function.update, hw]
      · simp [Function.update, hw, hwo]
  simp only [function.ctor_move, State.set, ho] at h
  exact h

theorem construct_wf [Instantiations Ty Val]
    (fuel : Nat) {s s1 : State Ty Val} (hs : s.wf) (this : Nat)
    (arg : CtorArg Ty Val) (h : function.construct fuel s this arg = .ok s1) : s1.wf := by
  cases arg with
  | callable cat F v =>
    rw [construct_callable_ok h]
    exact wf_alloc hs this F v
  | wrapper cat o =>
    cases cat with
    | lvalue =>
      simp [function.construct, function.ctor_forward, ctor_forward_wrapper_diverges] at h
    | const_rvalue =>
      simp [function.construct, function.ctor_forward, ctor_forward_wrapper_diverges] at h
    | rvalue =>
      obtain rfl : _ = s1 := Except.ok.inj h
      exact wf_move hs this o
    | const_lvalue =>
      cases ho : (s.objs o).callable_ with
      | none =>
        rw [construct_copy_empty fuel this ho] at h
        obtain rfl : _ = s1 := Except.ok.inj h
        exact wf_set_none hs this
      | some p =>
        obtain ⟨F, v, hp⟩ := hs.1 o p ho
        cases hF : Instantiations.is_function Val F with
        | true => simp [construct_copy_function fuel this ⟨ho, hp⟩ hF] at h
        | false =>
          rw [construct_copy_holds fuel this ⟨ho, hp⟩ hF] at h
          obtain rfl : _ = s1 := Except.ok.inj h
          exact wf_alloc hs this F v

theorem assign_copy_wf [Instantiations Ty Val]
    (fuel : Nat) {s : State Ty Val} (hs : s.wf) (t o : Nat)
    {r : AssignResult Ty Val} (h : function.operator_assign_copy fuel s t o = .ok r) :
    r.state.wf := by
  by_cases hto : t = o
  · simp [function.operator_assign_copy, hto] at h
    rw [← h]
    exact hs
  · cases ho : (s.objs o).callable_ with
    | none =>
      rw [assign_copy_empty fuel hto ho (hs.1 t)] at h
      obtain rfl : _ = r := Except.ok.inj h
      exact wf_release hs t
    | some p =>
      obtain ⟨F, v, hp⟩ := hs.1 o p ho
      cases hF : Instantiations.is_function Val F with
      | true => simp [assign_copy_function fuel hto ⟨ho, hp⟩ hF] at h
      | false =>
        rw [assign_copy_holds fuel hto ⟨ho, hp⟩ hF (hs.1 t)] at h
        obtain rfl : _ = r := Except.ok.inj h
        exact wf_assign_copy_holds hs t F v

theorem assign_move_wf (fuel : Nat) {s : State Ty Val} (hs : s.wf) (t o : Nat)
    {r : AssignResult Ty Val} (h : function.operator_assign_move fuel s t o = .ok r) :
    r.state.wf := by
  by_cases hto : t = o
  · subst hto
    rw [assign_move_self_eq] at h
    obtain rfl : _ = r := Except.ok.inj h
    exact hs
  · rw [assign_move_sound fuel hto (hs.1 t)] at h
    obtain rfl : _ = r := Except.ok.inj h
    exact wf_assign_move hs hto

theorem call_wf (call : (F : Ty) → Val F → Args → R × Val F) (fuel : Nat)
    {s : State Ty Val} (hs : s.wf) (t : Nat) (args : Args) {x : R × State Ty Val}
    (h : function.operator_call call fuel s t args = .ok x) : x.2.wf := by
  cases ht : (s.objs t).callable_ with
  | none => simp [function.operator_call, ht, invoke] at h
  | some p =>
    obtain ⟨F, v, hp⟩ := hs.1 t p ht
    rw [operator_call_value call fuel ⟨ht, hp⟩ args] at h
    obtain rfl : _ = x := Except.ok.inj h
    exact wf_write hs hp _

theorem target_sound [DecidableEq Ty] {s : State Ty Val} {w : Nat} (hw : s.sound w)
    (T : type_info Ty) :
    (∃ p F v, s.holds w p F v ∧ T = .of F ∧ function.target s w T = .ok (some p)) ∨
      function.target s w T = .ok none := by
  cases hc : (s.objs w).callable_ with
  | none => exact Or.inr (by simp [function.target, hc])
  | some p =>
    obtain ⟨F, v, hp⟩ := hw p hc
    by_cases hT : T = .of F
    · exact Or.inl ⟨p, F, v, ⟨hc, hp⟩, hT, by rw [hT]; exact target_holds ⟨hc, hp⟩⟩
    · exact Or.inr (by
        simp [function.target, function.target_type, hc, hp, Callable.target_type,
          Ne.symm hT])

theorem target_store_wf [DecidableEq Ty] {s s1 : State Ty Val} (hs : s.wf) (t : Nat) (F : Ty)
    (u : Val F) (h : function.target_store s t F u = .ok s1) : s1.wf := by
  rcases target_sound (hs.1 t) (.of F) with ⟨p, G, v, hh, hT, -⟩ | hn
  · obtain rfl : F = G := by simpa using hT
    rw [target_store_holds hh u] at h
    obtain rfl : _ = s1 := Except.ok.inj h
    exact wf_write hs hh.2 u
  · simp [function.target_store, hn] at h

theorem step_wf [Instantiations Ty Val]
    [DecidableEq Ty] (call : (F : Ty) → Val F → Args → R × Val F) (fuel : Nat)
    {s s1 : State Ty Val} (hs : s.wf) (op : Op Args Ty Val)
    (h : step call fuel s op = .ok s1) : s1.wf := by
  cases op with
  | construct this arg => exact construct_wf fuel hs this arg h
  | ctor_default this =>
    obtain rfl : _ = s1 := Except.ok.inj h
    exact wf_set_none hs this
  | assign_copy this other =>
    simp only [step] at h
    cases hr : function.operator_assign_copy fuel s this other with
    | error e => simp [hr] at h
    | ok r =>
      simp only [hr] at h
      obtain rfl : _ = s1 := Except.ok.inj h
      exact assign_copy_wf fuel hs this other hr
  | assign_move this other =>
    simp only [step] at h
    cases hr : function.operator_assign_move fuel s this other with
    | error e => simp [hr] at h
    | ok r =>
      simp only [hr] at h
      obtain rfl : _ = s1 := Except.ok.inj h
      exact assign_move_wf fuel hs this other hr
  | call this args =>
    simp only [step] at h
    cases hr : function.operator_call call fuel s this args with
    | error e => simp [hr] at h
    | ok x =>
      simp only [hr] at h
      obtain rfl : _ = s1 := Except.ok.inj h
      exact call_wf call fuel hs this args hr
  | target this T =>
    simp only [step] at h
    cases hr : function.target s this T with
    | error e => simp [hr] at h
    | ok x =>
      simp only [hr] at h
      obtain rfl : _ = s1 := Except.ok.inj h
      exact hs
  | target_store this F v => exact target_store_wf hs this F v h

theorem run_wf [Instantiations Ty Val]
    [DecidableEq Ty] (call : (F : Ty) → Val F → Args → R × Val F) (fuel : Nat)
    (ops : List (Op Args Ty Val)) :
    ∀ {s s1 : State Ty Val}, s.wf → run call fuel s ops = .ok s1 → s1.wf := by
  induction ops with
  | nil =>
    intro s s1 hs h
    obtain rfl : _ = s1 := Except.ok.inj h
    exact hs
  | cons op rest ih =>
    intro s s1 hs h
    simp only [run] at h
    cases hr : step call fuel s op with
    | error e => simp [hr] at h
    | ok s2 =>
      simp only [hr] at h
      exact ih (step_wf call fuel hs op hr) h

theorem sample_reached_run : run sample_call 0 State.empty sample_ops = .ok sample_reached :=
  rfl

/-! ## Reachable states -/

/-- C13: in every state the public operations reach from the state without wrappers, every
wrapper is empty or its handle refers to a live adapter, and no adapter is referred to by two
different wrappers. -/
theorem exclusive_ownership [Instantiations Ty Val]
    [DecidableEq Ty] (call : (F : Ty) → Val F → Args → R × Val F)
    (fuel : Nat) (ops : List (Op Args Ty Val)) (s : State Ty Val)
    (h : run call fuel State.empty ops = .ok s) :
    (∀ w, (s.objs w).callable_ = none ∨
      ∃ p F v, (s.objs w).callable_ = some p ∧ s.heap.read p = some (.value F v)) ∧
    ∀ w1 w2 p, (s.objs w1).callable_ = some p → (s.objs w2).callable_ = some p → w1 = w2 := by
  have hs := run_wf call fuel ops wf_empty h
  refine ⟨fun w => ?_, hs.2⟩
  cases hc : (s.objs w).callable_ with
  | none => exact Or.inl rfl
  | some p =>
    obtain ⟨F, v, hp⟩ := hs.1 w p hc
    exact Or.inr ⟨p, F, v, rfl, hp⟩

theorem exclusive_ownership_witness :
    run sample_call 0 State.empty sample_ops = .ok sample_reached ∧
      (∀ w, (sample_reached.objs w).callable_ = none ∨
        ∃ p F v, (sample_reached.objs w).callable_ = some p ∧
          sample_reached.heap.read p = some (.value F v)) ∧
      ∀ w1 w2 p, (sample_reached.objs w1).callable_ = some p →
        (sample_reached.objs w2).callable_ = some p → w1 = w2 :=
  ⟨sample_reached_run,
    exclusive_ownership sample_call 0 sample_ops sample_reached sample_reached_run⟩

/-- C11: in every reachable state and for every type T, target for T completes; it is
non-null exactly when the wrapper is non-empty and its target type is T, and a non-null
result is the wrapper's own handle, the address of the held value, which is of type T. -/
theorem target_total [Instantiations Ty Val]
    [DecidableEq Ty] (call : (F : Ty) → Val F → Args → R × Val F)
    (fuel : Nat) (ops : List (Op Args Ty Val)) (s : State Ty Val)
    (h : run call fuel State.empty ops = .ok s) (w : Nat) (T : type_info Ty) :
    ∃ r, function.target s w T = .ok r ∧
      (r.isSome = true ↔
        function.operator_bool s w = true ∧ function.target_type s w = .ok T) ∧
      ∀ p, r = some p →
        (s.objs w).callable_ = some p ∧
          ∃ F v, T = .of F ∧ s.heap.read p = some (.value F v) := by
  have hs := run_wf call fuel ops wf_empty h
  cases hc : (s.objs w).callable_ with
  | none =>
    refine ⟨none, by simp [function.target, hc], ?_, fun p hp => by simp at hp⟩
    simp [function.operator_bool, hc]
  | some q =>
    obtain ⟨F, v, hq⟩ := hs.1 w q hc
    by_cases hT : T = .of F
    · refine ⟨some q, by rw [hT]; exact target_holds ⟨hc, hq⟩, ?_, ?_⟩
      · simp [function.operator_bool, function.target_type, hc, hq, Callable.target_type, hT]
      · intro p hp
        obtain rfl : q = p := by simpa using hp
        exact ⟨rfl, F, v, hT, hq⟩
    · refine ⟨none, ?_, ?_, fun p hp => by simp at hp⟩
      · simp [function.target, function.target_type, hc, hq, Callable.target_type,
          Ne.symm hT]
      · simp [function.operator_bool, function.target_type, hc, hq, Callable.target_type,
          Ne.symm hT]

theorem target_total_witness :
    run sample_call 0 State.empty sample_ops = .ok sample_reached ∧
      ∃ r, function.target sample_reached 0 (.of .adder) = .ok r ∧
        (r.isSome = true ↔
          function.operator_bool sample_reached 0 = true ∧
            function.target_type sample_reached 0 = .ok (.of .adder)) ∧
        ∀ p, r = some p →
          (sample_reached.objs 0).callable_ = some p ∧
            ∃ F v, type_info.of SampleTy.adder = .of F ∧
              sample_reached.heap.read p = some (.value F v) :=
  ⟨sample_reached_run,
    target_total sample_call 0 sample_ops sample_reached sample_reached_run 0 (.of .adder)⟩

/-- C17: in every reachable state, the target type of a wrapper is defined, and it is
typeid(void) exactly when the wrapper converts to false: a holding wrapper never reports
typeid(void). -/
theorem sentinel_iff_empty [Instantiations Ty Val]
    [DecidableEq Ty] (call : (F : Ty) → Val F → Args → R × Val F)
    (fuel : Nat) (ops : List (Op Args Ty Val)) (s : State Ty Val)
    (h : run call fuel State.empty ops = .ok s) (w : Nat) :
    ∃ ti, function.target_type s w = .ok ti ∧
      (ti = .void ↔ function.operator_bool s w = false) := by
  have hs := run_wf call fuel ops wf_empty h
  cases hc : (s.objs w).callable_ with
  | none => exact ⟨.void, by simp [function.target_type, hc], by simp [function.operator_bool, hc]⟩
  | some q =>
    obtain ⟨F, v, hq⟩ := hs.1 w q hc
    exact ⟨.of F, by simp [function.target_type, hc, hq, Callable.target_type],
      by simp [function.operator_bool, hc]⟩

theorem sentinel_iff_empty_witness :
    run sample_call 0 State.empty sample_ops = .ok sample_reached ∧
      ∃ ti, function.target_type sample_reached 2 = .ok ti ∧
        (ti = .void ↔ function.operator_bool sample_reached 2 = false) :=
  ⟨sample_reached_run,
    sentinel_iff_empty sample_call 0 sample_ops sample_reached sample_reached_run 2⟩

end Proofs

end M1sakalib
